import Mathlib

/-!
Shallow embedding of the Procurement reverse-bidding marketplace
(React/TypeScript, Firebase backend) and proofs about its auction
lifecycle and lane-matching engine.

Modelling conventions:
* JavaScript strings are sequences of code points, embedded as `List Nat`.
  `toUpperCase` is modelled on the Basic Latin range (`a`–`z` maps to
  `A`–`Z`, every other code point is fixed); the regex class `\s` is
  modelled by the common JavaScript whitespace code points.
* Dynamically-typed values flowing through the defensive utilities of
  `src/hooks/useLaneMatching.ts` are embedded as the inductive `JSVal`.
* `Array.prototype.sort` is stable (ECMAScript 2019); a stable sort of a
  list is unique, so it is embedded as stable insertion sort.
* The Firebase record store is out of scope per the specification; a
  partial `update` is modelled as a record merge in which a field set to
  `undefined` is cleared.
-/

/-- A JavaScript string, as its sequence of code points. -/
abbrev Str := List Nat

/-- Code points of a Lean string literal, for writing concrete inputs. -/
def strCodes (s : String) : Str := s.toList.map Char.toNat

/-- The JavaScript whitespace class `\s` (space, tab, LF, VT, FF, CR,
NBSP, BOM) on code points. -/
def jsIsWs (c : Nat) : Bool :=
  c = 32 || c = 9 || c = 10 || c = 11 || c = 12 || c = 13 || c = 160 || c = 65279

/-- `String.prototype.toUpperCase` on one code point, Basic Latin range. -/
def jsToUpper (c : Nat) : Nat :=
  if 97 ≤ c ∧ c ≤ 122 then c - 32 else c

/-- `String.prototype.trim`: drop leading and trailing whitespace. -/
def jsTrim (s : Str) : Str :=
  ((s.dropWhile jsIsWs).reverse.dropWhile jsIsWs).reverse

/-- `.replace(/\s+/g, '')`: remove every whitespace code point. -/
def removeWs (s : Str) : Str := s.filter (fun c => !jsIsWs c)

/-- A dynamically-typed JavaScript value, as received by the defensive
utilities (`unknown` in the source). Objects are association lists from
property names to values. -/
inductive JSVal where
  | vstr (s : Str)
  | vnum (n : Int)
  | vbool (b : Bool)
  | vnull
  | vundefined
  | varr (elems : List JSVal)
  | vobj (fields : List (Str × JSVal))

/-- Property lookup on an object's field list; first binding wins. -/
def lookupField : List (Str × JSVal) → Str → JSVal
  | [], _ => .vundefined
  | (k, v) :: rest, name => if k = name then v else lookupField rest name

/-- `value.prop`: safe property access, `undefined` on non-objects. -/
def getField : JSVal → Str → JSVal
  | .vobj fields, name => lookupField fields name
  | _, _ => .vundefined

/-- `typeof v === 'object' && v !== null` (arrays are objects). -/
def isObjectNonNull : JSVal → Bool
  | .vobj _ => true
  | .varr _ => true
  | _ => false

/-- Strict equality `v === true`. -/
def isTrueV : JSVal → Bool
  | .vbool b => b
  | _ => false

/-- Strict equality `v === false`. -/
def isFalseV : JSVal → Bool
  | .vbool b => !b
  | _ => false

/-- Strict equality of a value against a string: `v === s`. -/
def strEqV : JSVal → Str → Bool
  | .vstr s, t => s = t
  | _, _ => false

/-- `normalizeCityName` (src/hooks/useLaneMatching.ts): non-strings map
to the empty string; a string is trimmed, upper-cased, and stripped of
all internal whitespace. -/
def normalizeCityName : JSVal → Str
  | .vstr s => if s = [] then [] else removeWs ((jsTrim s).map jsToUpper)
  | _ => []

/-- `createLaneKey` (src/hooks/useLaneMatching.ts): the string
`ORIGIN-DESTINATION` from the normalized cities, or empty if either
normalizes to empty. Code point 45 is `'-'`. -/
def createLaneKey (origin destination : JSVal) : Str :=
  let normalizedOrigin := normalizeCityName origin
  let normalizedDestination := normalizeCityName destination
  if normalizedOrigin = [] ∨ normalizedDestination = [] then []
  else normalizedOrigin ++ 45 :: normalizedDestination

/-- `validateLaneOriginDestination` (src/hooks/useLaneMatching.ts):
both cities normalize to non-empty strings and differ. -/
def validateLaneOriginDestination (origin destination : JSVal) : Bool :=
  let normalizedOrigin := normalizeCityName origin
  let normalizedDestination := normalizeCityName destination
  if normalizedOrigin = [] ∨ normalizedDestination = [] then false
  else normalizedOrigin ≠ normalizedDestination

/-- One iteration of the `lanes.some(...)` scan inside `laneExists`:
an entry that is not a non-null object, or is the excluded id, is a
non-match; otherwise its `origin`/`destination` properties are read
safely and compared after normalization. -/
def laneEntryMatches (lane : JSVal) (normalizedOrigin normalizedDestination : Str)
    (excludeId : Option Str) : Bool :=
  if !isObjectNonNull lane then false
  else
    let skip := match excludeId with
      | some e => e ≠ [] && strEqV (getField lane (strCodes "id")) e
      | none => false
    if skip then false
    else
      normalizeCityName (getField lane (strCodes "origin")) = normalizedOrigin &&
      normalizeCityName (getField lane (strCodes "destination")) = normalizedDestination

/-- `laneExists` (src/hooks/useLaneMatching.ts): checks the supplied
collection for a lane with the given normalized origin/destination,
returning `false` (never failing) on a non-array collection, an invalid
query, or unreadable entries. -/
def laneExists (lanes : JSVal) (origin destination : JSVal)
    (excludeId : Option Str) : Bool :=
  match lanes with
  | .varr ls =>
    if !validateLaneOriginDestination origin destination then false
    else
      let normalizedOrigin := normalizeCityName origin
      let normalizedDestination := normalizeCityName destination
      ls.any (fun lane => laneEntryMatches lane normalizedOrigin normalizedDestination excludeId)
  | _ => false

-- Basic facts about the string model.

theorem jsToUpper_idem (c : Nat) : jsToUpper (jsToUpper c) = jsToUpper c := by
  unfold jsToUpper
  split
  · have : ¬(97 ≤ c - 32 ∧ c - 32 ≤ 122) := by omega
    simp only [this, if_false]
  · rfl

theorem jsToUpper_not_ws (c : Nat) (h : jsIsWs c = false) :
    jsIsWs (jsToUpper c) = false := by
  unfold jsToUpper
  split
  · unfold jsIsWs at *
    simp only [Bool.or_eq_false_iff, decide_eq_false_iff_not] at *
    omega
  · exact h

theorem dropWhile_eq_self_of_none {p : Nat → Bool} {l : Str}
    (h : ∀ c ∈ l, p c = false) : l.dropWhile p = l := by
  cases l with
  | nil => rfl
  | cons a t =>
    rw [List.dropWhile_cons]
    simp [h a (List.mem_cons_self a t)]

theorem jsTrim_eq_self_of_noWs {l : Str}
    (h : ∀ c ∈ l, jsIsWs c = false) : jsTrim l = l := by
  unfold jsTrim
  rw [dropWhile_eq_self_of_none h, dropWhile_eq_self_of_none, List.reverse_reverse]
  intro c hc
  exact h c (List.mem_reverse.mp hc)

theorem removeWs_noWs (l : Str) : ∀ c ∈ removeWs l, jsIsWs c = false := by
  intro c hc
  have := List.of_mem_filter hc
  simpa using this

theorem map_eq_self_of_fixed {f : Nat → Nat} {l : Str}
    (h : ∀ c ∈ l, f c = c) : l.map f = l := by
  induction l with
  | nil => rfl
  | cons a t ih =>
    simp only [List.map_cons, h a (List.mem_cons_self a t), List.cons.injEq, true_and]
    exact ih (fun c hc => h c (List.mem_cons_of_mem a hc))

/-- The payload of `normalizeCityName` on a string. -/
def normStr (s : Str) : Str := if s = [] then [] else removeWs ((jsTrim s).map jsToUpper)

theorem normalizeCityName_vstr (s : Str) :
    normalizeCityName (.vstr s) = normStr s := rfl

theorem normStr_noWs (s : Str) : ∀ c ∈ normStr s, jsIsWs c = false := by
  intro c hc
  unfold normStr at hc
  split at hc
  · simp at hc
  · exact removeWs_noWs _ c hc

theorem normStr_upper_fixed (s : Str) : ∀ c ∈ normStr s, jsToUpper c = c := by
  intro c hc
  unfold normStr at hc
  split at hc
  · simp at hc
  · have : c ∈ (jsTrim s).map jsToUpper := List.mem_of_mem_filter hc
    obtain ⟨a, _, rfl⟩ := List.mem_map.mp this
    exact jsToUpper_idem a

theorem normStr_idem (s : Str) : normStr (normStr s) = normStr s := by
  have h1 := normStr_noWs s
  have h2 := normStr_upper_fixed s
  set t := normStr s with ht
  by_cases h : t = []
  · rw [h]; rfl
  · show normStr t = t
    unfold normStr
    rw [if_neg h, jsTrim_eq_self_of_noWs h1, map_eq_self_of_fixed h2]
    unfold removeWs
    rw [List.filter_eq_self.mpr]
    intro c hc
    simp [h1 c hc]

-- § Shipment-to-lane matcher (src/hooks/useLaneMatching.ts) and the lane
-- listener filter (src/services/firebaseService.ts).

/-- The fields of a shipment bid record read by the matcher; the code
accesses them through `unknown` casts, so they are dynamically typed. -/
structure ShipmentRec where
  pickupCity : JSVal
  deliveryCity : JSVal

/-- The fields of a persisted lane record read by the matcher and the
lane listener; dynamically typed as they arrive from the store. -/
structure LaneRec where
  id : JSVal
  origin : JSVal
  destination : JSVal
  isActive : JSVal

/-- `shipmentMatchesLane` (src/hooks/useLaneMatching.ts): the lane must
have `isActive === true`, and the shipment's hyphen-joined normalized
city key must be non-empty and equal the lane's key. -/
def shipmentMatchesLane (shipment : ShipmentRec) (lane : LaneRec) : Bool :=
  if !isTrueV lane.isActive then false
  else
    let shipmentLaneKey := createLaneKey shipment.pickupCity shipment.deliveryCity
    let laneLaneKey := createLaneKey lane.origin lane.destination
    shipmentLaneKey ≠ [] && shipmentLaneKey = laneLaneKey

/-- The filter applied by `listenToLanes` (src/services/firebaseService.ts)
before delivering lanes to subscribers: every lane with
`isActive !== false` is kept. (The listener also orders the result by
origin/destination; the ordering does not affect membership and is not
modelled.) -/
def listenToLanesFilter (lanes : List LaneRec) : List LaneRec :=
  lanes.filter (fun lane => !isFalseV lane.isActive)

/-- The fields of a vendor record read by the matcher; `lanes` is
dynamically typed because the code guards it with `isArray`. -/
structure VendorRec where
  id : Str
  lanes : JSVal

/-- The vendor-side guard shared by `getMatchingVendors` and
`filterShipmentsByVendorLanes`: `!vendor.lanes` is an array of length
at least one. -/
def vendorHasLanes (vendor : VendorRec) : Bool :=
  match vendor.lanes with
  | .varr ids => !ids.isEmpty
  | _ => false

/-- `lanes.find(l => l && l.id === laneId)` for a string lane id. -/
def findLaneById (lanes : List LaneRec) (laneId : Str) : Option LaneRec :=
  lanes.find? (fun l => strEqV l.id laneId)

/-- The per-vendor test inside `getMatchingVendors`: resolve the
vendor's string lane ids against the lane collection and ask whether at
least one resolved lane matches the shipment. -/
def vendorMatchesShipment (shipment : ShipmentRec) (lanes : List LaneRec)
    (vendor : VendorRec) : Bool :=
  match vendor.lanes with
  | .varr ids =>
    if ids.isEmpty then false
    else
      let vendorLanes := ids.filterMap (fun idv =>
        match idv with
        | .vstr s => findLaneById lanes s
        | _ => none)
      !vendorLanes.isEmpty && vendorLanes.any (fun lane => shipmentMatchesLane shipment lane)
  | _ => false

/-- `getMatchingVendors` (src/hooks/useLaneMatching.ts): the vendors
whose assigned lanes match the shipment; empty when either collection
is empty. -/
def getMatchingVendors (shipment : ShipmentRec) (vendors : List VendorRec)
    (lanes : List LaneRec) : List VendorRec :=
  if vendors.isEmpty || lanes.isEmpty then []
  else vendors.filter (vendorMatchesShipment shipment lanes)

/-- The id→lane lookup built by `filterShipmentsByVendorLanes` via a
`Map`: entries with a truthy string `id` are inserted in order and later
insertions overwrite earlier ones, so a lookup finds the last such lane. -/
def laneMapGet (lanes : List LaneRec) (laneId : Str) : Option LaneRec :=
  (lanes.reverse).find? (fun l => strEqV l.id laneId && laneId ≠ [])

/-- `filterShipmentsByVendorLanes` (src/hooks/useLaneMatching.ts): the
shipments matching at least one of the vendor's assigned lanes; empty
when the vendor has no lane array or it is empty. -/
def filterShipmentsByVendorLanes (shipments : List ShipmentRec)
    (vendor : VendorRec) (lanes : List LaneRec) : List ShipmentRec :=
  if !vendorHasLanes vendor then []
  else
    shipments.filter (fun shipment =>
      match vendor.lanes with
      | .varr ids => ids.any (fun idv =>
          match idv with
          | .vstr s =>
            match laneMapGet lanes s with
            | some lane => shipmentMatchesLane shipment lane
            | none => false
          | _ => false)
      | _ => false)

-- § Auction state machine (src/App.tsx, src/services/firebaseService.ts,
-- src/components/VendorDashboard.tsx).

/-- `BidStatus` (src/types.ts). -/
inductive BidStatus where
  | OPEN
  | CLOSED
  | NEGOTIATING
  | FINALIZED
  | ASSIGNED
  deriving DecidableEq

/-- `BidOffer` (src/types.ts): vendor identity and name denormalized at
submission time, the amount, and the submission timestamp (an ISO
string; the operations never read it). -/
structure BidOffer where
  vendorId : Str
  vendorName : Str
  amount : Int
  timestamp : Str
  deriving DecidableEq

/-- `VehicleDetails` (src/types.ts), as filled by the vendor dashboard. -/
structure VehicleDetails where
  vehicleNumber : Str
  vehicleType : Str
  driverName : Str
  driverPhone : Str
  expectedDispatch : Str
  deriving DecidableEq

/-- The fields of `ShipmentBid` (src/types.ts) read or written by the
auction operations; the remaining fields (route, cargo, pricing) are
inert payload for these operations and are not modelled. -/
structure Bid where
  id : Str
  lane : Str
  status : BidStatus
  offers : List BidOffer
  counterOffer : Option Int
  winningVendorId : Option Str
  finalAmount : Option Int
  vehicleDetails : Option VehicleDetails
  bidStartDate : Str
  bidStartTime : Str
  bidEndDate : Str
  bidEndTime : Str
  deriving DecidableEq

/-- Stable insertion of an offer before the first offer with at least
its amount: the insertion step of a stable ascending sort for the
comparator `(a, b) => a.amount - b.amount`. -/
def insertLE (o : BidOffer) : List BidOffer → List BidOffer
  | [] => [o]
  | b :: l => if o.amount ≤ b.amount then o :: b :: l else b :: insertLE o l

/-- `offers.sort((a, b) => a.amount - b.amount)`: ECMAScript sort is
stable, and a stable sort of a list is unique, so it is embedded as
stable insertion sort. -/
def sortOffers : List BidOffer → List BidOffer
  | [] => []
  | o :: l => insertLE o (sortOffers l)

/-- `FirebaseService.placeBidOffer`: if the stored bid exists, append
the offer and re-sort ascending by amount; no other field changes and
no further guard. `none` models the `Bid not found` failure, which
leaves the store unchanged. -/
def placeBidOffer (stored : Option Bid) (offer : BidOffer) : Option Bid :=
  match stored with
  | some bid => some { bid with offers := sortOffers (bid.offers ++ [offer]) }
  | none => none

/-- `placeOffer` (src/App.tsx): build the offer record from the
caller-supplied identity, amount and timestamp and hand it to
`placeBidOffer`; the function performs no guard of its own. -/
def placeOffer (stored : Option Bid) (vendorId vendorName : Str)
    (amount : Int) (timestamp : Str) : Option Bid :=
  placeBidOffer stored ⟨vendorId, vendorName, amount, timestamp⟩

/-- `handleCounterOffer` (src/App.tsx): returns without touching the
store unless the bid has at least one offer; otherwise takes
`offers[0]` as the winner, sets the counter amount and the winning
vendor, and moves the status to `NEGOTIATING`. -/
def handleCounterOffer (bid : Bid) (amount : Int) : Option Bid :=
  match bid.offers with
  | [] => none
  | winner :: _ =>
    some { bid with status := .NEGOTIATING, counterOffer := some amount,
                    winningVendorId := some winner.vendorId }

/-- `respondToCounter` (src/App.tsx): accepting finalizes at the
countered amount; rejecting sets the status back to `OPEN` and writes
`counterOffer: undefined`, clearing the field. -/
def respondToCounter (bid : Bid) (accept : Bool) : Bid :=
  if accept then { bid with status := .FINALIZED, finalAmount := bid.counterOffer }
  else { bid with status := .OPEN, counterOffer := none }

/-- `submitVehicleDetails` (src/App.tsx and
`FirebaseService.submitVehicleDetails`): store the details and set the
status to `ASSIGNED`; the operation checks neither the caller's
identity nor the field contents. -/
def submitVehicleDetails (bid : Bid) (details : VehicleDetails) : Bid :=
  { bid with vehicleDetails := some details, status := .ASSIGNED }

/-- The vendor-dashboard flow in front of `submitVehicleDetails`
(src/components/VendorDashboard.tsx): the dispatch form is rendered
only for a `FINALIZED` bid whose `winningVendorId` is the current user,
and the submit handler refuses an empty (after trimming) vehicle
number, driver name, driver phone or expected dispatch; `none` means
the operation is never invoked. -/
def vendorSubmitVehicleFlow (bid : Bid) (currentUserId : Str)
    (details : VehicleDetails) : Option Bid :=
  if bid.status = .FINALIZED ∧ bid.winningVendorId = some currentUserId then
    if jsTrim details.vehicleNumber ≠ [] ∧ jsTrim details.driverName ≠ [] ∧
       jsTrim details.driverPhone ≠ [] ∧ jsTrim details.expectedDispatch ≠ [] then
      some (submitVehicleDetails bid details)
    else none
  else none

/-- `myRank` (src/components/VendorDashboard.tsx): sort a copy of the
offers ascending by amount (stable) and return the 1-based index of the
vendor's first offer in that order, or `none` when the bid has no
offers or the vendor none (amounts are numbers in the typed model, so
the defensive `typeof` fallback to `0` never fires). -/
def myRank (bid : Bid) (currentUserId : Str) : Option Nat :=
  match bid.offers with
  | [] => none
  | _ =>
    let sortedOffers := sortOffers bid.offers
    match sortedOffers.findIdx? (fun o => o.vendorId = currentUserId) with
    | none => none
    | some i => some (i + 1)

/-- Modelled from the spec, for comparison with `myRank`: "Sort all
offers ascending by amount (stable tie-break = submission order);
return 1-based position of the vendor's lowest-amount offer, or null if
the vendor has no offer." `submissions` lists every offer of the bid in
submission order. -/
def rankSpec (submissions : List BidOffer) (vendorId : Str) : Option Nat :=
  match (sortOffers submissions).findIdx? (fun o => o.vendorId = vendorId) with
  | none => none
  | some i => some (i + 1)

/-- The stored offers of a bid reached by successful `placeBidOffer`
calls from a freshly created bid (`offers: []`), submissions listed in
order. -/
def offersOf (submissions : List BidOffer) : List BidOffer :=
  submissions.foldl (fun acc o => sortOffers (acc ++ [o])) []

/-- Insertion after every offer of at most the same amount: what a
stable sort does to the element appended at the end. -/
def insertEnd (o : BidOffer) : List BidOffer → List BidOffer
  | [] => [o]
  | b :: l => if b.amount ≤ o.amount then b :: insertEnd o l else o :: b :: l

/-- Ascending by amount. -/
def OffersSorted (l : List BidOffer) : Prop :=
  l.Pairwise (fun a b => a.amount ≤ b.amount)

-- Facts about the stable sort used by `placeBidOffer` and `myRank`.

theorem insertLE_perm (o : BidOffer) (l : List BidOffer) :
    (insertLE o l).Perm (o :: l) := by
  induction l with
  | nil => simp [insertLE]
  | cons b t ih =>
    by_cases hc : o.amount ≤ b.amount
    · rw [insertLE, if_pos hc]
    · rw [insertLE, if_neg hc]
      exact (ih.cons b).trans (List.Perm.swap o b t)

theorem insertLE_sorted {l : List BidOffer} (o : BidOffer) (h : OffersSorted l) :
    OffersSorted (insertLE o l) := by
  induction l with
  | nil => simp [insertLE, OffersSorted]
  | cons b t ih =>
    rw [OffersSorted, List.pairwise_cons] at h
    obtain ⟨hb, ht⟩ := h
    by_cases hc : o.amount ≤ b.amount
    · rw [insertLE, if_pos hc]
      exact List.Pairwise.cons
        (fun x hx => by
          rcases List.mem_cons.mp hx with rfl | hx
          · exact hc
          · exact le_trans hc (hb x hx))
        (List.Pairwise.cons hb ht)
    · rw [insertLE, if_neg hc]
      refine List.Pairwise.cons (fun x hx => ?_) (ih ht)
      rcases List.mem_cons.mp ((insertLE_perm o t).mem_iff.mp hx) with rfl | hx2
      · omega
      · exact hb x hx2

theorem sortOffers_perm (l : List BidOffer) : (sortOffers l).Perm l := by
  induction l with
  | nil => simp [sortOffers]
  | cons o t ih =>
    rw [sortOffers]
    exact (insertLE_perm o (sortOffers t)).trans (ih.cons o)

theorem sortOffers_sorted (l : List BidOffer) : OffersSorted (sortOffers l) := by
  induction l with
  | nil => simp [sortOffers, OffersSorted]
  | cons o t ih => exact insertLE_sorted o ih

theorem sortOffers_of_sorted {l : List BidOffer} (h : OffersSorted l) :
    sortOffers l = l := by
  induction l with
  | nil => rfl
  | cons a t ih =>
    rw [OffersSorted, List.pairwise_cons] at h
    obtain ⟨ha, ht⟩ := h
    rw [sortOffers, ih ht]
    cases t with
    | nil => rfl
    | cons b t' => rw [insertLE, if_pos (ha b (List.mem_cons_self b t'))]

theorem sortOffers_idem (l : List BidOffer) :
    sortOffers (sortOffers l) = sortOffers l :=
  sortOffers_of_sorted (sortOffers_sorted l)

theorem insertLE_insertEnd_comm (a o : BidOffer) (m : List BidOffer) :
    insertLE a (insertEnd o m) = insertEnd o (insertLE a m) := by
  induction m with
  | nil => simp [insertLE, insertEnd]
  | cons b t ih =>
    by_cases h1 : b.amount ≤ o.amount
    · by_cases h2 : a.amount ≤ b.amount
      · have h3 : a.amount ≤ o.amount := le_trans h2 h1
        simp [insertLE, insertEnd, h1, h2, h3]
      · simp [insertLE, insertEnd, h1, h2, ih]
    · by_cases h2 : a.amount ≤ b.amount
      · by_cases h3 : a.amount ≤ o.amount
        · simp [insertLE, insertEnd, h1, h2, h3]
        · simp [insertLE, insertEnd, h1, h2, h3]
      · have h3 : ¬ a.amount ≤ o.amount := by omega
        simp [insertLE, insertEnd, h1, h2, h3]

theorem sortOffers_append_singleton (l : List BidOffer) (o : BidOffer) :
    sortOffers (l ++ [o]) = insertEnd o (sortOffers l) := by
  induction l with
  | nil => simp [sortOffers, insertEnd, insertLE]
  | cons a t ih =>
    have hcons : sortOffers ((a :: t) ++ [o]) = insertLE a (sortOffers (t ++ [o])) := rfl
    rw [hcons, ih, insertLE_insertEnd_comm]
    rfl

theorem foldl_place_sort (ss l : List BidOffer) :
    ss.foldl (fun acc o => sortOffers (acc ++ [o])) (sortOffers l) =
      sortOffers (l ++ ss) := by
  induction ss generalizing l with
  | nil => simp
  | cons o ss' ih =>
    rw [List.foldl_cons]
    have hstep : sortOffers (sortOffers l ++ [o]) = sortOffers (l ++ [o]) := by
      rw [sortOffers_append_singleton, sortOffers_append_singleton, sortOffers_idem]
    rw [hstep, ih (l ++ [o])]
    simp

theorem offersOf_eq_sortOffers (ss : List BidOffer) : offersOf ss = sortOffers ss := by
  have h := foldl_place_sort ss []
  simpa [offersOf, sortOffers] using h

theorem insertLE_filter_eq (o : BidOffer) (m : List BidOffer) (a : Int)
    (h : o.amount = a) :
    (insertLE o m).filter (fun x => x.amount == a) =
      o :: m.filter (fun x => x.amount == a) := by
  induction m with
  | nil => simp [insertLE, h]
  | cons b t ih =>
    by_cases hc : o.amount ≤ b.amount
    · rw [insertLE, if_pos hc]
      simp [List.filter_cons, h]
    · rw [insertLE, if_neg hc]
      have hb : (b.amount == a) = false := by simp; omega
      simp [List.filter_cons, hb, ih]

theorem insertLE_filter_ne (o : BidOffer) (m : List BidOffer) (a : Int)
    (h : ¬ o.amount = a) :
    (insertLE o m).filter (fun x => x.amount == a) =
      m.filter (fun x => x.amount == a) := by
  induction m with
  | nil => simp [insertLE, h]
  | cons b t ih =>
    by_cases hc : o.amount ≤ b.amount
    · rw [insertLE, if_pos hc]
      simp [List.filter_cons, h]
    · rw [insertLE, if_neg hc]
      simp [List.filter_cons, ih]

theorem sortOffers_filter (l : List BidOffer) (a : Int) :
    (sortOffers l).filter (fun x => x.amount == a) =
      l.filter (fun x => x.amount == a) := by
  induction l with
  | nil => rfl
  | cons o t ih =>
    rw [sortOffers]
    by_cases h : o.amount = a
    · rw [insertLE_filter_eq o (sortOffers t) a h, ih]
      simp [List.filter_cons, h]
    · rw [insertLE_filter_ne o (sortOffers t) a h, ih]
      simp [List.filter_cons, h]

theorem sorted_head_min {hd : BidOffer} {t : List BidOffer}
    (h : OffersSorted (hd :: t)) : ∀ o ∈ hd :: t, hd.amount ≤ o.amount := by
  intro o ho
  rcases List.mem_cons.mp ho with rfl | ho
  · exact le_refl _
  · exact (List.pairwise_cons.mp h).1 o ho

-- Helper characterizations of the strict-equality tests.

theorem isTrueV_eq_true_iff (v : JSVal) : isTrueV v = true ↔ v = .vbool true := by
  cases v <;> simp [isTrueV]

theorem isFalseV_eq_false_iff (v : JSVal) : isFalseV v = false ↔ v ≠ .vbool false := by
  cases v <;> simp [isFalseV]

-- § Claim theorems.

/-- C6: the city normalizer is total and never throws: every non-text
input maps to the empty string; text is trimmed, upper-cased and
stripped of whitespace (the spec's example `"  new   delhi "` maps to
`"NEWDELHI"`), and normalization is idempotent on all text. (Totality
is intrinsic: `normalizeCityName` is a total function of its input.) -/
theorem c6_normalizer_total_idempotent :
    (∀ v : JSVal, (∀ s, v ≠ .vstr s) → normalizeCityName v = []) ∧
    (∀ s : Str,
      normalizeCityName (.vstr (normalizeCityName (.vstr s))) =
        normalizeCityName (.vstr s)) ∧
    normalizeCityName (.vstr (strCodes "  new   delhi ")) = strCodes "NEWDELHI" := by
  refine ⟨?_, ?_, ?_⟩
  · intro v hv
    cases v
    case vstr s => exact absurd rfl (hv s)
    all_goals rfl
  · intro s
    simp only [normalizeCityName_vstr]
    exact normStr_idem s
  · decide

/-- Witness for C6 at concrete inputs: a number input normalizes to the
empty string, and normalizing `" Pune "` is idempotent. -/
theorem c6_witness :
    normalizeCityName (.vnum 123) = [] ∧
    normalizeCityName (.vstr (normalizeCityName (.vstr (strCodes " Pune ")))) =
      normalizeCityName (.vstr (strCodes " Pune ")) :=
  ⟨c6_normalizer_total_idempotent.1 (.vnum 123) (fun _ h => nomatch h),
   c6_normalizer_total_idempotent.2.1 (strCodes " Pune ")⟩

/-- C7: `laneExists` is total (never throws), treats unreadable entries
(`null`, a numeric `origin`) as non-matches while still finding the
well-formed `Pune → Mumbai` entry, and returns `false` for any query
whose origin/destination fail validation (empty after normalization, or
equal to each other), whatever the collection. -/
theorem c7_laneExists_malformed_tolerance :
    laneExists
        (.varr [.vnull,
                .vobj [(strCodes "origin", .vnum 42)],
                .vobj [(strCodes "origin", .vstr (strCodes "Pune")),
                       (strCodes "destination", .vstr (strCodes "Mumbai"))]])
        (.vstr (strCodes "Pune")) (.vstr (strCodes "Mumbai")) none = true ∧
    (∀ (lanes origin destination : JSVal) (excludeId : Option Str),
      validateLaneOriginDestination origin destination = false →
      laneExists lanes origin destination excludeId = false) := by
  constructor
  · decide
  · intro lanes origin destination excludeId h
    cases lanes <;> simp [laneExists, h]

/-- Witness for C7: a same-city query (fails origin ≠ destination
validation) returns `false` on a non-empty collection. -/
theorem c7_witness :
    laneExists (.varr [.vobj [(strCodes "origin", .vstr (strCodes "Delhi"))]])
      (.vstr (strCodes "Delhi")) (.vstr (strCodes "Delhi")) none = false :=
  c7_laneExists_malformed_tolerance.2 _ _ _ none (by decide)

/-- A shipment whose pickup city contains a hyphen: `"A-B" → "C"`. -/
def hyphenShipment : ShipmentRec :=
  { pickupCity := .vstr (strCodes "A-B"), deliveryCity := .vstr (strCodes "C") }

/-- An active lane `"A" → "B-C"`: its hyphen-joined key `"A-B-C"`
coincides with `hyphenShipment`'s even though no city agrees
component-wise. -/
def hyphenLane : LaneRec :=
  { id := .vstr (strCodes "L1"), origin := .vstr (strCodes "A"),
    destination := .vstr (strCodes "B-C"), isActive := .vbool true }

/-- Counterexample to C5 as stated: `shipmentMatchesLane` compares the
hyphen-joined keys, which is weaker than the claimed component-wise
equality when a city name contains a hyphen — here the shipment matches
the lane although `normalize(pickupCity) ≠ normalize(origin)`. -/
theorem c5_counterexample_hyphen_city :
    shipmentMatchesLane hyphenShipment hyphenLane = true ∧
    normalizeCityName hyphenShipment.pickupCity ≠ normalizeCityName hyphenLane.origin := by
  decide

/-- C5 amended: `matches(shipment, lane)` is true iff `lane.isActive`
is literally `true` and the shipment's hyphen-joined normalized key is
non-empty and equal to the lane's key (component-wise equality of
normalized cities implies this, and coincides with it whenever no
normalized name contains a hyphen); matching is directional — the
spec's Mumbai→Pune shipment does not match a Pune→Mumbai lane. -/
theorem c5_amended_matches_by_key :
    (∀ (s : ShipmentRec) (l : LaneRec),
      shipmentMatchesLane s l = true ↔
        (isTrueV l.isActive = true ∧
         createLaneKey s.pickupCity s.deliveryCity ≠ [] ∧
         createLaneKey s.pickupCity s.deliveryCity =
           createLaneKey l.origin l.destination)) ∧
    shipmentMatchesLane
        { pickupCity := .vstr (strCodes "Mumbai"),
          deliveryCity := .vstr (strCodes "Pune") }
        { id := .vnull, origin := .vstr (strCodes "Pune"),
          destination := .vstr (strCodes "Mumbai"),
          isActive := .vbool true } = false := by
  constructor
  · intro s l
    unfold shipmentMatchesLane
    by_cases h : isTrueV l.isActive
    · simp [h]
    · simp [h]
  · decide

/-- A lane record with no `isActive` field at all (`undefined`). -/
def laneMissingActive : LaneRec :=
  { id := .vstr (strCodes "L2"), origin := .vstr (strCodes "Delhi"),
    destination := .vstr (strCodes "Mumbai"), isActive := .vundefined }

/-- C10: `shipmentMatchesLane` requires `isActive === true`, so a lane
whose `isActive` is missing or non-boolean matches no shipment, while
the lane listener keeps every lane with `isActive !== false` — in
particular `laneMissingActive` is delivered to subscribers yet can
never match. -/
theorem c10_strict_true_vs_listener_filter :
    (∀ (s : ShipmentRec) (l : LaneRec),
      shipmentMatchesLane s l = true → l.isActive = .vbool true) ∧
    (∀ (lanes : List LaneRec) (l : LaneRec),
      l ∈ lanes → l.isActive ≠ .vbool false → l ∈ listenToLanesFilter lanes) ∧
    (∀ s : ShipmentRec, shipmentMatchesLane s laneMissingActive = false) ∧
    laneMissingActive ∈ listenToLanesFilter [laneMissingActive] := by
  refine ⟨?_, ?_, ?_, ?_⟩
  · intro s l h
    unfold shipmentMatchesLane at h
    by_cases ha : isTrueV l.isActive
    · exact (isTrueV_eq_true_iff l.isActive).mp ha
    · simp [ha] at h
  · intro lanes l hmem hne
    unfold listenToLanesFilter
    refine List.mem_filter.mpr ⟨hmem, ?_⟩
    simp [(isFalseV_eq_false_iff l.isActive).mpr hne]
  · intro s
    rfl
  · simp [listenToLanesFilter, laneMissingActive, isFalseV]

/-- Witness for C10: a lane with boolean `isActive = true` passes the
listener filter by the theorem's second conjunct. -/
theorem c10_witness :
    hyphenLane ∈ listenToLanesFilter [hyphenLane] :=
  c10_strict_true_vs_listener_filter.2.1 [hyphenLane] hyphenLane
    (List.mem_singleton.mpr rfl) (fun h => nomatch h)

/-- The per-vendor test of `getMatchingVendors` passes only vendors
whose `lanes` field is a non-empty array. -/
theorem vendorMatches_hasLanes {shipment : ShipmentRec} {lanes : List LaneRec}
    {v : VendorRec} (h : vendorMatchesShipment shipment lanes v = true) :
    vendorHasLanes v = true := by
  unfold vendorMatchesShipment at h
  unfold vendorHasLanes
  cases hv : v.lanes <;> rw [hv] at h <;> simp_all

/-- C8: a vendor whose lane set is empty or missing is eligible for
nothing — never returned by `getMatchingVendors` for any shipment, and
`filterShipmentsByVendorLanes` returns no shipment for it. -/
theorem c8_empty_lanes_no_eligibility :
    (∀ (shipment : ShipmentRec) (vendors : List VendorRec)
        (lanes : List LaneRec) (v : VendorRec),
        vendorHasLanes v = false →
        v ∉ getMatchingVendors shipment vendors lanes) ∧
    (∀ (shipments : List ShipmentRec) (vendor : VendorRec)
        (lanes : List LaneRec),
        vendorHasLanes vendor = false →
        filterShipmentsByVendorLanes shipments vendor lanes = []) := by
  constructor
  · intro shipment vendors lanes v hv hmem
    unfold getMatchingVendors at hmem
    split at hmem
    · simp at hmem
    · have hfil := (List.mem_filter.mp hmem).2
      rw [vendorMatches_hasLanes hfil] at hv
      exact Bool.noConfusion hv
  · intro shipments vendor lanes hv
    unfold filterShipmentsByVendorLanes
    simp [hv]

/-- A vendor with an explicitly empty lane array. -/
def emptyLanesVendor : VendorRec :=
  { id := strCodes "v9", lanes := .varr [] }

/-- Witness for C8 at concrete inputs: the empty-lane vendor is not
matched to a shipment and sees no shipments. -/
theorem c8_witness :
    emptyLanesVendor ∉
      getMatchingVendors hyphenShipment [emptyLanesVendor] [hyphenLane] ∧
    filterShipmentsByVendorLanes [hyphenShipment] emptyLanesVendor [hyphenLane] = [] :=
  ⟨c8_empty_lanes_no_eligibility.1 hyphenShipment [emptyLanesVendor] [hyphenLane]
      emptyLanesVendor rfl,
   c8_empty_lanes_no_eligibility.2 [hyphenShipment] emptyLanesVendor [hyphenLane] rfl⟩

-- Sample data: the spec's ranking scenario, submitted in timestamp order.

/-- Offer (v1, 5000, t1). -/
def offerV1 : BidOffer :=
  { vendorId := strCodes "v1", vendorName := strCodes "Vendor One",
    amount := 5000, timestamp := strCodes "2024-05-18T10:00:00.000Z" }

/-- Offer (v2, 4800, t2). -/
def offerV2 : BidOffer :=
  { vendorId := strCodes "v2", vendorName := strCodes "Vendor Two",
    amount := 4800, timestamp := strCodes "2024-05-18T11:00:00.000Z" }

/-- Offer (v3, 4800, t3), submitted after t2. -/
def offerV3 : BidOffer :=
  { vendorId := strCodes "v3", vendorName := strCodes "Vendor Three",
    amount := 4800, timestamp := strCodes "2024-05-18T12:00:00.000Z" }

/-- The spec's ranking scenario, in submission order. -/
def sampleSubmissions : List BidOffer := [offerV1, offerV2, offerV3]

/-- A shipment bid record with the given stored offers; the bidding
window ended at 2024-05-20 18:00. -/
def mkBid (offers : List BidOffer) : Bid :=
  { id := strCodes "bid-101", lane := strCodes "DELHI-MUMBAI",
    status := .OPEN, offers := offers, counterOffer := none,
    winningVendorId := none, finalAmount := none, vehicleDetails := none,
    bidStartDate := strCodes "2024-05-18", bidStartTime := strCodes "09:00",
    bidEndDate := strCodes "2024-05-20", bidEndTime := strCodes "18:00" }

/-- The sample bid after the three sample submissions. -/
def sampleBid : Bid := mkBid (offersOf sampleSubmissions)

/-- C9: in every reachable bid state the stored offers are sorted
ascending by amount with equal amounts kept in submission order (the
filter at any amount value equals the submission-order filter), each
successful `placeBidOffer` preserves sortedness, the first stored offer
carries the minimum amount, and the counter-offer operation always
selects `offers[0]`'s vendor as the winning vendor. -/
theorem c9_sorted_offers_invariant :
    (∀ ss : List BidOffer,
        OffersSorted (offersOf ss) ∧ (offersOf ss).Perm ss ∧
        ∀ a : Int, (offersOf ss).filter (fun o => o.amount == a) =
          ss.filter (fun o => o.amount == a)) ∧
    (∀ (bid : Bid) (offer : BidOffer) (b' : Bid),
        placeBidOffer (some bid) offer = some b' → OffersSorted b'.offers) ∧
    (∀ (ss : List BidOffer) (hd : BidOffer) (t : List BidOffer),
        offersOf ss = hd :: t → ∀ o ∈ offersOf ss, hd.amount ≤ o.amount) ∧
    (∀ (bid : Bid) (amount : Int) (b' : Bid),
        handleCounterOffer bid amount = some b' →
        ∃ hd t, bid.offers = hd :: t ∧ b'.winningVendorId = some hd.vendorId) := by
  refine ⟨?_, ?_, ?_, ?_⟩
  · intro ss
    rw [offersOf_eq_sortOffers]
    exact ⟨sortOffers_sorted ss, sortOffers_perm ss, fun a => sortOffers_filter ss a⟩
  · intro bid offer b' h
    unfold placeBidOffer at h
    have h2 := Option.some.inj h
    subst h2
    exact sortOffers_sorted _
  · intro ss hd t hcons o ho
    have hs := sortOffers_sorted ss
    rw [← offersOf_eq_sortOffers, hcons] at hs
    rw [hcons] at ho
    exact sorted_head_min hs o ho
  · intro bid amount b' h
    unfold handleCounterOffer at h
    cases hoff : bid.offers with
    | nil => rw [hoff] at h; exact Option.noConfusion h
    | cons w t =>
      rw [hoff] at h
      have h2 := Option.some.inj h
      subst h2
      exact ⟨w, t, rfl, rfl⟩

/-- The sample bid after the admin counters at 4300: `offers[0]` is the
(v2, 4800) offer, so v2 becomes the winning vendor. -/
def sampleCountered : Bid :=
  { sampleBid with
      status := .NEGOTIATING
      counterOffer := some 4300
      winningVendorId := some (strCodes "v2") }

/-- Witness for C9: on the sample bid, countering selects the first
stored offer's vendor. -/
theorem c9_witness :
    ∃ hd t, sampleBid.offers = hd :: t ∧
      sampleCountered.winningVendorId = some hd.vendorId :=
  c9_sorted_offers_invariant.2.2.2 sampleBid 4300 sampleCountered (by decide)

/-- C1: the rank query. On every bid whose offers were stored by the
code's own append operation, `myRank` agrees with the spec's rank
(`rankSpec`, stable ascending sort with submission-order tie-break);
the rank is `none` exactly when the vendor has no offer; a rank `i + 1`
points at an offer of the vendor whose amount is minimal among all of
the vendor's offers; and the spec's scenario with offers
[(v1,5000,t1), (v2,4800,t2), (v3,4800,t3)], t2 before t3, yields
rank(v2) = 1, rank(v3) = 2, rank(v1) = 3. -/
theorem c1_rank_query :
    (∀ (ss : List BidOffer) (bid : Bid) (v : Str),
        bid.offers = offersOf ss → myRank bid v = rankSpec ss v) ∧
    (∀ (ss : List BidOffer) (v : Str),
        rankSpec ss v = none ↔ ∀ o ∈ ss, o.vendorId ≠ v) ∧
    (∀ (ss : List BidOffer) (v : Str) (i : Nat),
        rankSpec ss v = some (i + 1) →
        ∃ o, (sortOffers ss)[i]? = some o ∧ o.vendorId = v ∧
          ∀ o' ∈ ss, o'.vendorId = v → o.amount ≤ o'.amount) ∧
    (myRank sampleBid (strCodes "v2") = some 1 ∧
     myRank sampleBid (strCodes "v3") = some 2 ∧
     myRank sampleBid (strCodes "v1") = some 3) := by
  refine ⟨?_, ?_, ?_, ?_⟩
  · intro ss bid v hoff
    unfold myRank rankSpec
    rw [hoff, offersOf_eq_sortOffers, sortOffers_idem]
    cases hss : sortOffers ss with
    | nil => simp
    | cons a t => simp
  · intro ss v
    unfold rankSpec
    constructor
    · intro h o ho
      cases hf : (sortOffers ss).findIdx? (fun o => o.vendorId = v) with
      | some i => rw [hf] at h; simp at h
      | none =>
        have := List.findIdx?_eq_none_iff.mp hf o ((sortOffers_perm ss).mem_iff.mpr ho)
        simpa using this
    · intro hall
      have hnone : (sortOffers ss).findIdx? (fun o => o.vendorId = v) = none :=
        List.findIdx?_eq_none_iff.mpr
          (fun x hx => by simpa using hall x ((sortOffers_perm ss).mem_iff.mp hx))
      rw [hnone]
  · intro ss v i h
    unfold rankSpec at h
    cases hf : (sortOffers ss).findIdx? (fun o => o.vendorId = v) with
    | none => rw [hf] at h; exact Option.noConfusion h
    | some j =>
      rw [hf] at h
      have hji : j = i := by
        have := Option.some.inj h
        omega
      subst hji
      obtain ⟨hlen, hp, hbefore⟩ := List.findIdx?_eq_some_iff_getElem.mp hf
      refine ⟨(sortOffers ss)[j], ?_, ?_, ?_⟩
      · exact List.getElem?_eq_getElem hlen
      · simpa using hp
      · intro o' ho' hv'
        have ho'' : o' ∈ sortOffers ss := (sortOffers_perm ss).mem_iff.mpr ho'
        obtain ⟨k, hk, hke⟩ := List.mem_iff_getElem.mp ho''
        by_cases hkj : k < j
        · have hno := hbefore k hkj
          rw [hke] at hno
          simp [hv'] at hno
        · rcases Nat.eq_or_lt_of_le (Nat.le_of_not_lt hkj) with heq | hlt
          · subst heq
            exact le_of_eq (congrArg BidOffer.amount hke)
          · have hpair := (List.pairwise_iff_getElem.mp (sortOffers_sorted ss))
              j k hlen hk hlt
            rw [hke] at hpair
            exact hpair
  · refine ⟨?_, ?_, ?_⟩ <;> decide

/-- Witness for C1: the agreement between `myRank` and the spec's rank
at the sample bid (whose offers are exactly the stored result of the
three sample submissions). -/
theorem c1_witness :
    myRank sampleBid (strCodes "v2") = rankSpec sampleSubmissions (strCodes "v2") :=
  c1_rank_query.1 sampleSubmissions sampleBid (strCodes "v2") rfl

/-- C4: for every reachable bid with at least one offer, countering
(which sets `counterOffer`, selects the rank-1 = minimum-amount vendor
as `winningVendorId` and moves to `NEGOTIATING`) followed by the
vendor's rejection returns the bid to `OPEN` with `counterOffer`
cleared and the offers untouched, and the reopened bid accepts a
further offer from any vendor — including the one who rejected. -/
theorem c4_negotiation_round_trip :
    ∀ (bid : Bid) (ss : List BidOffer) (amount : Int),
      bid.offers = offersOf ss → bid.offers ≠ [] →
      ∃ b', handleCounterOffer bid amount = some b' ∧
        b'.status = .NEGOTIATING ∧ b'.counterOffer = some amount ∧
        (∃ hd t, bid.offers = hd :: t ∧ b'.winningVendorId = some hd.vendorId ∧
          ∀ o ∈ bid.offers, hd.amount ≤ o.amount) ∧
        (respondToCounter b' false).status = .OPEN ∧
        (respondToCounter b' false).counterOffer = none ∧
        (respondToCounter b' false).offers = bid.offers ∧
        (∀ (vendorId vendorName : Str) (amt : Int) (ts : Str),
          ∃ b'', placeOffer (some (respondToCounter b' false)) vendorId vendorName amt ts
              = some b'' ∧
            b''.offers.Perm (bid.offers ++ [⟨vendorId, vendorName, amt, ts⟩])) := by
  intro bid ss amount hreach hne
  cases hoff : bid.offers with
  | nil => exact absurd hoff hne
  | cons hd t =>
    refine ⟨{ bid with
                status := .NEGOTIATING
                counterOffer := some amount
                winningVendorId := some hd.vendorId },
            ?_, rfl, rfl, ?_, rfl, rfl, ?_, ?_⟩
    · unfold handleCounterOffer
      rw [hoff]
    · refine ⟨hd, t, rfl, rfl, ?_⟩
      intro o ho
      have hs := sortOffers_sorted ss
      rw [← offersOf_eq_sortOffers, ← hreach, hoff] at hs
      exact sorted_head_min hs o ho
    · exact hoff
    · intro vid vname amt ts
      refine ⟨_, rfl, ?_⟩
      have hp := sortOffers_perm (bid.offers ++ [⟨vid, vname, amt, ts⟩])
      have hq : (bid.offers ++ [(⟨vid, vname, amt, ts⟩ : BidOffer)]).Perm
          (hd :: t ++ [⟨vid, vname, amt, ts⟩]) := by
        rw [hoff]
      exact hp.trans hq

/-- Witness for C4: the round trip on the sample bid, countered at
4300 and rejected. -/
theorem c4_witness :
    ∃ b', handleCounterOffer sampleBid 4300 = some b' ∧
      b'.status = .NEGOTIATING ∧ b'.counterOffer = some 4300 ∧
      (∃ hd t, sampleBid.offers = hd :: t ∧ b'.winningVendorId = some hd.vendorId ∧
        ∀ o ∈ sampleBid.offers, hd.amount ≤ o.amount) ∧
      (respondToCounter b' false).status = .OPEN ∧
      (respondToCounter b' false).counterOffer = none ∧
      (respondToCounter b' false).offers = sampleBid.offers ∧
      (∀ (vendorId vendorName : Str) (amt : Int) (ts : Str),
        ∃ b'', placeOffer (some (respondToCounter b' false)) vendorId vendorName amt ts
            = some b'' ∧
          b''.offers.Perm (sampleBid.offers ++ [⟨vendorId, vendorName, amt, ts⟩])) :=
  c4_negotiation_round_trip sampleBid sampleSubmissions 4300 rfl (by decide)

/-- An `OPEN` bid with no offers yet whose bidding window ended at
2024-05-20 18:00: every later offer "arrives after the deadline". -/
def expiredBid : Bid := mkBid []

/-- The guard-less offer that `placeOffer` accepts on `expiredBid`: a
negative amount, timestamped years after the bid's end time, from a
vendor unrelated to the bid's lane. -/
def rogueOffer : BidOffer :=
  { vendorId := strCodes "v-rogue", vendorName := strCodes "Rogue Carrier",
    amount := -50, timestamp := strCodes "2099-01-01T00:00:00.000Z" }

/-- Counterexample to C2 as stated: `placeOffer` consults neither the
clock nor the amount nor the vendor's lane eligibility — on a bid whose
window ended in 2024 it accepts an offer timestamped 2099 with a
negative amount, stores it, and changes the stored bid instead of
rejecting the call (the operation takes no current time at all, so the
result is the same whenever the call happens). No `AuctionNotOpen`,
`AmountNotPositive` or `VendorNotEligible` rejection exists in the
code. -/
theorem c2_counterexample_unguarded_offer :
    placeOffer (some expiredBid) (strCodes "v-rogue") (strCodes "Rogue Carrier")
        (-50) (strCodes "2099-01-01T00:00:00.000Z")
      = some { expiredBid with offers := [rogueOffer] } ∧
    ({ expiredBid with offers := [rogueOffer] } : Bid) ≠ expiredBid ∧
    ({ expiredBid with offers := [rogueOffer] } : Bid).status = .OPEN := by
  refine ⟨by decide, by decide, rfl⟩

/-- C2 amended: `placeOffer` succeeds unconditionally whenever the
stored bid exists — it appends the offer (re-sorting the offers
ascending by amount) and leaves the status and every other field
unchanged, with no time-window, positivity or eligibility guard and no
rejection reason; the only failure is a missing bid (`Bid not found`),
which leaves the store unchanged. -/
theorem c2_amended_place_offer_unconditional :
    (∀ (vendorId vendorName : Str) (amount : Int) (ts : Str),
        placeOffer none vendorId vendorName amount ts = none) ∧
    (∀ (bid : Bid) (vendorId vendorName : Str) (amount : Int) (ts : Str),
      ∃ b', placeOffer (some bid) vendorId vendorName amount ts = some b' ∧
        b'.status = bid.status ∧ b'.counterOffer = bid.counterOffer ∧
        b'.winningVendorId = bid.winningVendorId ∧
        b'.finalAmount = bid.finalAmount ∧
        b'.vehicleDetails = bid.vehicleDetails ∧
        b'.offers.Perm (bid.offers ++ [⟨vendorId, vendorName, amount, ts⟩]) ∧
        OffersSorted b'.offers) := by
  constructor
  · intro vendorId vendorName amount ts
    rfl
  · intro bid vendorId vendorName amount ts
    refine ⟨_, rfl, rfl, rfl, rfl, rfl, rfl, ?_, ?_⟩
    · exact sortOffers_perm _
    · exact sortOffers_sorted _

/-- A finalized bid won by vendor v2 at 4300. -/
def finalizedBid : Bid :=
  { sampleBid with
      status := .FINALIZED
      winningVendorId := some (strCodes "v2")
      finalAmount := some 4300 }

/-- Dispatch details with every required field non-empty. -/
def sampleDetails : VehicleDetails :=
  { vehicleNumber := strCodes "DL01AA1234", vehicleType := strCodes "Truck",
    driverName := strCodes "Ravi Kumar", driverPhone := strCodes "+919800000000",
    expectedDispatch := strCodes "2024-05-21T09:00" }

/-- Counterexample to C3 as stated: `submitVehicleDetails` takes no
submitting-vendor identity at all and performs no `NotWinningVendor`
check — invoked on a `FINALIZED` bid won by v2, on behalf of any caller
whatsoever, it stores the details and moves the bid to `ASSIGNED`
rather than rejecting and keeping it `FINALIZED`. -/
theorem c3_counterexample_no_authorization :
    (submitVehicleDetails finalizedBid sampleDetails).status = .ASSIGNED ∧
    (submitVehicleDetails finalizedBid sampleDetails).status ≠ .FINALIZED ∧
    (submitVehicleDetails finalizedBid sampleDetails).vehicleDetails
      = some sampleDetails := by
  refine ⟨rfl, by decide, rfl⟩

/-- C3 amended: the operation itself stores the details and sets
`ASSIGNED` unconditionally for any caller — there is no
`NotWinningVendor` rejection anywhere; the winning-vendor and
non-empty-field checks live only in the vendor dashboard, which invokes
the operation only when the bid is `FINALIZED`, `winningVendorId`
equals the current vendor, and every dispatch field is non-empty after
trimming — for any other vendor the flow never invokes the operation,
so through the dashboard the bid stays `FINALIZED`. -/
theorem c3_amended_submit_vehicle :
    (∀ (bid : Bid) (details : VehicleDetails),
        (submitVehicleDetails bid details).status = .ASSIGNED ∧
        (submitVehicleDetails bid details).vehicleDetails = some details) ∧
    (∀ (bid : Bid) (uid : Str) (details : VehicleDetails),
        bid.winningVendorId ≠ some uid →
        vendorSubmitVehicleFlow bid uid details = none) ∧
    (∀ (bid : Bid) (uid : Str) (details : VehicleDetails) (b' : Bid),
        vendorSubmitVehicleFlow bid uid details = some b' →
        bid.status = .FINALIZED ∧ bid.winningVendorId = some uid ∧
        b'.status = .ASSIGNED ∧ b'.vehicleDetails = some details) := by
  refine ⟨?_, ?_, ?_⟩
  · intro bid details
    exact ⟨rfl, rfl⟩
  · intro bid uid details hw
    unfold vendorSubmitVehicleFlow
    rw [if_neg]
    intro ⟨_, hwin⟩
    exact hw hwin
  · intro bid uid details b' h
    unfold vendorSubmitVehicleFlow at h
    split at h
    · split at h
      · have h2 := Option.some.inj h
        subst h2
        rename_i hgate _
        exact ⟨hgate.1, hgate.2, rfl, rfl⟩
      · exact Option.noConfusion h
    · exact Option.noConfusion h

/-- Witness for C3 (amended): vendor v1 is not the winner of
`finalizedBid`, so the dashboard flow never invokes the operation. -/
theorem c3_witness :
    vendorSubmitVehicleFlow finalizedBid (strCodes "v1") sampleDetails = none :=
  c3_amended_submit_vehicle.2.1 finalizedBid (strCodes "v1") sampleDetails (by decide)
